import Mathlib

/-
Verification of the core algorithms of the beach-crowd repository.

The repository consists of four Python scripts that estimate the number of
people in beach webcam images.  The reusable algorithmic core embedded here:

* `slice_image`        - the tiling engine (beach-detector.py, pi-detector.py)
* `nms_merge`          - greedy non-maximum-suppression detection merging
                         (pi-detector.py nms_merge, beach-detector.py
                         merge_detections; the two functions are identical)
* `calculate_busyness` - density-to-busyness scoring (pi-detector.py)
* `analyze_pixel_density_core` - the arithmetic core of the pixel-statistics
                         fallback (pixel-density-analyzer.py)
* `yoloMainMissingImage` - the control flow of yolo-detector.py main on a
                         missing image path

Real numbers are modelled as rationals; Python float arithmetic is idealized
as exact rational arithmetic.  All concrete inputs used in theorems are far
from any floating-point rounding boundary.
-/

namespace BeachCrowd

/-- Model of the Python builtin `int(x)` applied to a number: truncation
toward zero.  For a rational `q = num/den` in lowest terms with `den > 0`,
truncating division of the numerator by the denominator is exactly
truncation toward zero of `q`. -/
def pyInt (q : ℚ) : ℤ := Int.tdiv q.num q.den

/-! ### Detections and intersection-over-union

A detection carries an axis-aligned bounding box `[x1, y1, x2, y2]` in
original-image coordinates and a confidence score.  The constant class
label `'person'` carried by the Python dictionaries is omitted: every
detection in the pipeline has it. -/

structure Detection where
  x1 : ℚ
  y1 : ℚ
  x2 : ℚ
  y2 : ℚ
  confidence : ℚ
  deriving DecidableEq, Repr, Inhabited

/-- Intersection area of two boxes, as computed inside `nms_merge`:
`w = max(0, xx2 - xx1)`, `h = max(0, yy2 - yy1)`, `inter = w * h`. -/
def interArea (a b : Detection) : ℚ :=
  max 0 (min a.x2 b.x2 - max a.x1 b.x1) * max 0 (min a.y2 b.y2 - max a.y1 b.y1)

/-- Box area `(x2 - x1) * (y2 - y1)` as computed inside `nms_merge`. -/
def boxArea (a : Detection) : ℚ := (a.x2 - a.x1) * (a.y2 - a.y1)

/-- Intersection-over-union with the 1e-6 guard from the source:
`iou = inter / (area_i + area_rest - inter + 1e-6)`. -/
def iou (a b : Detection) : ℚ :=
  interArea a b / (boxArea a + boxArea b - interArea a b + 1 / 1000000)

/-! ### Detection merging (NMS)

`nms_merge` in pi-detector.py and `merge_detections` in beach-detector.py
are textually identical algorithms.  The Python code builds
`order = scores.argsort()[::-1]`: an ascending stable argsort of the
confidence scores, reversed.  (For the array sizes arising here numpy
argsort behaves as a stable sort: its introsort switches to insertion sort
below 16 elements, and every concrete input considered in the theorems
below is in that regime.)  Reversing the ascending stable order yields the
descending order in which, among equal confidences, the detection with the
LARGER input index comes first.  `procBefore l i j` states that index `i`
is processed no later than index `j` under that order. -/

/-- Confidence of the detection at index `i` of the input list. -/
def confAt (l : List Detection) (i : ℕ) : ℚ := (l.getD i default).confidence

/-- The processing order of `scores.argsort()[::-1]` as a relation on
input indices: strictly higher confidence first; on equal confidences the
larger input index first. -/
def procBefore (l : List Detection) (i j : ℕ) : Prop :=
  confAt l j < confAt l i ∨ (confAt l i = confAt l j ∧ j ≤ i)

instance (l : List Detection) : DecidableRel (procBefore l) := fun _ _ =>
  inferInstanceAs (Decidable (_ ∨ _))

instance (l : List Detection) : IsTotal ℕ (procBefore l) := by
  constructor
  intro i j
  rcases lt_trichotomy (confAt l i) (confAt l j) with h | h | h
  · exact Or.inr (Or.inl h)
  · rcases Nat.le_total i j with hij | hij
    · exact Or.inr (Or.inr ⟨h.symm, hij⟩)
    · exact Or.inl (Or.inr ⟨h, hij⟩)
  · exact Or.inl (Or.inl h)

instance (l : List Detection) : IsTrans ℕ (procBefore l) := by
  constructor
  intro i j k hij hjk
  rcases hij with h1 | ⟨h1, h1le⟩ <;> rcases hjk with h2 | ⟨h2, h2le⟩
  · exact Or.inl (h2.trans h1)
  · exact Or.inl (h2 ▸ h1)
  · exact Or.inl (h1 ▸ h2)
  · exact Or.inr ⟨h1.trans h2, h2le.trans h1le⟩

instance (l : List Detection) : IsAntisymm ℕ (procBefore l) := by
  constructor
  intro i j hij hji
  rcases hij with h1 | ⟨h1, h1le⟩ <;> rcases hji with h2 | ⟨h2, h2le⟩
  · exact absurd (h1.trans h2) (lt_irrefl _)
  · exact absurd h1 (h2 ▸ lt_irrefl _)
  · exact absurd h2 (h1 ▸ lt_irrefl _)
  · exact Nat.le_antisymm h2le h1le

/-- The index list `scores.argsort()[::-1]`. -/
def sortedOrder (l : List Detection) : List ℕ :=
  List.insertionSort (procBefore l) (List.range l.length)

/-- IoU between the detections at two input indices. -/
def iouAt (l : List Detection) (i j : ℕ) : ℚ :=
  iou (l.getD i default) (l.getD j default)

/-- The greedy suppression loop of `nms_merge`: keep the first index of
`order`, drop every later index whose IoU with it exceeds the threshold
(`remaining = np.where(iou <= iou_threshold)`), recurse on the rest. -/
def nmsLoop (l : List Detection) (t : ℚ) : List ℕ → List ℕ
  | [] => []
  | i :: rest => i :: nmsLoop l t (rest.filter (fun j => decide (iouAt l i j ≤ t)))
termination_by order => order.length
decreasing_by
  simpa [Nat.lt_succ_iff] using List.length_filter_le _ rest

/-- Embedding of `nms_merge(detections, iou_threshold)` from
pi-detector.py: run the greedy loop over the confidence-sorted index list
and read the kept detections back out of the input list
(`[detections[i] for i in indices]`). -/
def nms_merge (l : List Detection) (t : ℚ) : List Detection :=
  (nmsLoop l t (sortedOrder l)).map (fun i => l.getD i default)

/-- `merge_detections(all_detections, iou_threshold)` from
beach-detector.py is the same algorithm. -/
def merge_detections (l : List Detection) (t : ℚ) : List Detection :=
  nms_merge l t

/-! ### Tiling engine (slice_image in beach-detector.py and pi-detector.py)

Both scripts contain the same `slice_image`.  The image content is
irrelevant to the tile geometry, so a tile is embedded as the rectangle
`[x_start, x_end) x [y_start, y_end)` of pixel coordinates.  In the Python
code `x_start = max(0, x_end - slice_size)` on nonnegative ints, which is
exactly truncated subtraction on naturals. -/

structure Tile where
  x_start : ℕ
  y_start : ℕ
  x_end : ℕ
  y_end : ℕ
  deriving DecidableEq, Repr

/-- The Python iteration `range(0, stop, step)` for a positive step:
`k * step` for `k < ceil(stop / step)`. -/
def pyRange (stop step : ℕ) : List ℕ :=
  (List.range ((stop + step - 1) / step)).map (· * step)

/-- The stride `int(slice_size * (1 - overlap))` of `slice_image`.  Under
the documented constraint `0 ≤ overlap ≤ 1` the truncated value is
nonnegative, so the natural-number image of the Python int is faithful. -/
def strideNat (slice_size : ℕ) (overlap : ℚ) : ℕ :=
  (pyInt ((slice_size : ℚ) * (1 - overlap))).toNat

/-- One tile of `slice_image` for grid position `(x, y)`:
`x_end = min(x + slice_size, w)`, `x_start = max(0, x_end - slice_size)`,
and likewise on the y axis. -/
def mkTile (w h slice_size x y : ℕ) : Tile :=
  let x_end := min (x + slice_size) w
  let y_end := min (y + slice_size) h
  ⟨x_end - slice_size, y_end - slice_size, x_end, y_end⟩

/-- Embedding of `slice_image(image, slice_size, overlap)`.  When the
computed stride is zero the Python loop header `range(0, h, stride)`
raises `ValueError: range() arg 3 must not be zero`; that abnormal exit is
modelled as `none`.  Otherwise the nested loops walk y (outer) and x
(inner) from 0 in steps of `stride`. -/
def slice_image (w h slice_size : ℕ) (overlap : ℚ) : Option (List Tile) :=
  let stride := strideNat slice_size overlap
  if stride = 0 then none
  else
    some ((pyRange h stride).flatMap fun y =>
      (pyRange w stride).map fun x => mkTile w h slice_size x y)

/-- A pixel coordinate lies inside a tile rectangle. -/
def Tile.covers (tile : Tile) (px py : ℕ) : Prop :=
  tile.x_start ≤ px ∧ px < tile.x_end ∧ tile.y_start ≤ py ∧ py < tile.y_end

instance (tile : Tile) (px py : ℕ) : Decidable (tile.covers px py) :=
  inferInstanceAs (Decidable (_ ∧ _ ∧ _ ∧ _))

/-! ### CLI failure path of yolo-detector.py

Only the error-handling control flow on a nonexistent image path is
modelled; the detector invocation itself is an external collaborator. -/

structure DetectResult where
  success : Bool
  error : Option String
  deriving DecidableEq, Repr

/-- Embedding of the early-return branch of `detect_persons` when
`os.path.exists(image_path)` is false: a structured failure dictionary,
not an exception. -/
def detect_persons_missing_image (image_path : String) : DetectResult :=
  { success := false, error := some ("Image not found: " ++ image_path) }

structure CliOutcome where
  success : Bool
  has_error_message : Bool
  exit_code : ℕ
  deriving DecidableEq, Repr

/-- Embedding of the control flow of yolo-detector.py `main` when the
image path does not exist.  `detect_persons` returns the structured
failure above.  With `--json` the result is printed as JSON and `main`
falls through to a normal process exit (code 0); without `--json` the
human-readable branch prints the error and calls `sys.exit(1)`. -/
def yoloMainMissingImage (image_path : String) (json_flag : Bool) : CliOutcome :=
  let result := detect_persons_missing_image image_path
  if json_flag then
    { success := result.success, has_error_message := result.error.isSome
      exit_code := 0 }
  else
    { success := result.success, has_error_message := result.error.isSome
      exit_code := 1 }

/-! ### Busyness scorer (pi-detector.py, calculate_busyness)

The score is stored as an integer because the Python code materializes it
with `int(...)` (truncation), and the level as the literal strings the code
returns. -/

structure BusynessResult where
  score : ℤ
  level : String
  deriving DecidableEq, Repr

/-- Embedding of `calculate_busyness(person_count, beach_area_sqm)` from
pi-detector.py.  `density = (person_count / beach_area_sqm) * 100`; the
score in each branch is materialized with Python `int(...)`, i.e.
truncation toward zero.  The `density` field of the returned dictionary
(rounded to two decimals for display) is not modelled; no claim concerns
it. -/
def calculate_busyness (person_count : ℕ) (beach_area_sqm : ℚ) : BusynessResult :=
  let density : ℚ := ((person_count : ℚ) / beach_area_sqm) * 100
  if density ≤ 0.5 then
    ⟨pyInt ((density / 0.5) * 25), "quiet"⟩
  else if density ≤ 2.0 then
    ⟨pyInt (25 + ((density - 0.5) / 1.5) * 25), "moderate"⟩
  else if density ≤ 4.0 then
    ⟨pyInt (50 + ((density - 2.0) / 2.0) * 25), "busy"⟩
  else
    ⟨min 100 (pyInt (75 + ((density - 4.0) / 4.0) * 25)), "very_busy"⟩

/-- Modelled from the spec, for comparison with `calculate_busyness`: the
piecewise busyness formulas exactly as the spec states them, with `round`
(nearest-integer rounding) and explicitly bracketed density intervals. -/
def busynessSpecRound (person_count : ℕ) (reference_area : ℚ) : BusynessResult :=
  let density : ℚ := ((person_count : ℚ) / reference_area) * 100
  if density ≤ 0.5 then
    ⟨round (density / 0.5 * 25), "quiet"⟩
  else if 0.5 < density ∧ density ≤ 2.0 then
    ⟨round (25 + (density - 0.5) / 1.5 * 25), "moderate"⟩
  else if 2.0 < density ∧ density ≤ 4.0 then
    ⟨round (50 + (density - 2.0) / 2.0 * 25), "busy"⟩
  else
    ⟨min 100 (round (75 + (density - 4.0) / 4.0 * 25)), "very_busy"⟩

/-- The spec piecewise formulas amended only in the rounding mode: the
score uses truncation (Python int(), floor on the nonnegative densities
that arise) instead of nearest-integer rounding. -/
def busynessSpecTrunc (person_count : ℕ) (reference_area : ℚ) : BusynessResult :=
  let density : ℚ := ((person_count : ℚ) / reference_area) * 100
  if density ≤ 0.5 then
    ⟨pyInt (density / 0.5 * 25), "quiet"⟩
  else if 0.5 < density ∧ density ≤ 2.0 then
    ⟨pyInt (25 + (density - 0.5) / 1.5 * 25), "moderate"⟩
  else if 2.0 < density ∧ density ≤ 4.0 then
    ⟨pyInt (50 + (density - 2.0) / 2.0 * 25), "busy"⟩
  else
    ⟨min 100 (pyInt (75 + (density - 4.0) / 4.0 * 25)), "very_busy"⟩

/-! ### Pixel-density fallback (pixel-density-analyzer.py)

The OpenCV image processing (color-space conversion, masking, morphology,
Canny edges) is outside the embeddable core; its outputs are the four pixel
counters.  The arithmetic core below takes the three mask pixel counts and
the total pixel count and computes exactly what lines 99-168 of
pixel-density-analyzer.py compute from them. -/

structure DensityResult where
  estimated_persons : ℤ
  confidence : ℚ
  deriving DecidableEq, Repr

/-- Embedding of the count/confidence arithmetic of
`analyze_pixel_density`: percentages of total pixels, the fixed-weight
combination, `int(...)` conversion, clamping to `[0, 500]`, and the
four-bucket confidence step function. -/
def analyze_pixel_density_core
    (skin_pixels bright_pixels edge_pixels total_pixels : ℕ) : DensityResult :=
  let skin_percentage : ℚ := ((skin_pixels : ℚ) / (total_pixels : ℚ)) * 100
  let bright_percentage : ℚ := ((bright_pixels : ℚ) / (total_pixels : ℚ)) * 100
  let edge_percentage : ℚ := ((edge_pixels : ℚ) / (total_pixels : ℚ)) * 100
  let avg_person_pixel_percentage : ℚ := 1.0
  let weighted_activity : ℚ :=
    (skin_percentage * 0.6) + (bright_percentage * 0.25) + (edge_percentage * 0.15)
  let estimated_persons : ℤ := pyInt (weighted_activity / avg_person_pixel_percentage)
  let estimated_persons : ℤ := max 0 (min estimated_persons 500)
  let signal_strength : ℚ := (skin_percentage + bright_percentage) / 2
  let confidence : ℚ :=
    if signal_strength < 1.0 then 0.3
    else if signal_strength < 3.0 then 0.5
    else if signal_strength < 6.0 then 0.7
    else 0.85
  ⟨estimated_persons, confidence⟩

/-- Modelled from the spec, for comparison: the fallback count exactly as
the spec states it, `round(weighted_activity / per_person_pixel_percentage)`
with `per_person_pixel_percentage = 1.0`, clamped to `[0, 500]`. -/
def fallbackSpecRoundCount
    (skin_pixels bright_pixels edge_pixels total_pixels : ℕ) : ℤ :=
  let weighted_activity : ℚ :=
    0.6 * (((skin_pixels : ℚ) / (total_pixels : ℚ)) * 100)
      + 0.25 * (((bright_pixels : ℚ) / (total_pixels : ℚ)) * 100)
      + 0.15 * (((edge_pixels : ℚ) / (total_pixels : ℚ)) * 100)
  max 0 (min (round (weighted_activity / 1.0)) 500)

/-- The spec count formula amended only in the rounding mode: truncation
(Python int()) instead of nearest-integer rounding. -/
def fallbackSpecTruncCount
    (skin_pixels bright_pixels edge_pixels total_pixels : ℕ) : ℤ :=
  let weighted_activity : ℚ :=
    0.6 * (((skin_pixels : ℚ) / (total_pixels : ℚ)) * 100)
      + 0.25 * (((bright_pixels : ℚ) / (total_pixels : ℚ)) * 100)
      + 0.15 * (((edge_pixels : ℚ) / (total_pixels : ℚ)) * 100)
  max 0 (min (pyInt (weighted_activity / 1.0)) 500)

/-- Modelled from the spec, for comparison: the four-bucket confidence step
function of signal strength stated with explicit interval bounds. -/
def confidenceStepSpec (signal_strength : ℚ) : ℚ :=
  if signal_strength < 1.0 then 0.3
  else if 1.0 ≤ signal_strength ∧ signal_strength < 3.0 then 0.5
  else if 3.0 ≤ signal_strength ∧ signal_strength < 6.0 then 0.7
  else 0.85

/-! ## Theorems -/

/-- On nonnegative arguments, Python int() truncation agrees with floor. -/
theorem pyInt_eq_floor (q : ℚ) (h : 0 ≤ q) : pyInt q = ⌊q⌋ := by
  have hnum : 0 ≤ q.num := Rat.num_nonneg.mpr h
  rw [pyInt, Int.tdiv_eq_ediv hnum (Int.ofNat_nonneg q.den),
    ← Rat.floor_intCast_div_natCast, Rat.num_div_den]

theorem interArea_comm (a b : Detection) : interArea a b = interArea b a := by
  rw [interArea, interArea, min_comm a.x2 b.x2, max_comm a.x1 b.x1,
    min_comm a.y2 b.y2, max_comm a.y1 b.y1]

theorem iou_comm (a b : Detection) : iou a b = iou b a := by
  rw [iou, iou, interArea_comm, add_comm (boxArea a) (boxArea b)]

/-! ### Structural lemmas about the NMS merge -/

theorem sortedOrder_sorted (l : List Detection) :
    List.Sorted (procBefore l) (sortedOrder l) :=
  List.sorted_insertionSort _ _

theorem sortedOrder_perm (l : List Detection) :
    List.Perm (sortedOrder l) (List.range l.length) :=
  List.perm_insertionSort _ _

theorem mem_sortedOrder (l : List Detection) (i : ℕ) :
    i ∈ sortedOrder l ↔ i < l.length := by
  rw [(sortedOrder_perm l).mem_iff, List.mem_range]

theorem nodup_sortedOrder (l : List Detection) : (sortedOrder l).Nodup :=
  ((sortedOrder_perm l).nodup_iff).mpr (List.nodup_range _)

theorem nmsLoop_sublist (l : List Detection) (t : ℚ) :
    ∀ order : List ℕ, List.Sublist (nmsLoop l t order) order := by
  intro order
  induction order using nmsLoop.induct l t with
  | case1 => simp [nmsLoop]
  | case2 i rest ih =>
    rw [nmsLoop]
    exact (ih.trans (List.filter_sublist rest)).cons₂ i

theorem nmsLoop_pairwise_iou (l : List Detection) (t : ℚ) :
    ∀ order : List ℕ,
      (nmsLoop l t order).Pairwise (fun i j => iouAt l i j ≤ t) := by
  intro order
  induction order using nmsLoop.induct l t with
  | case1 => simp [nmsLoop]
  | case2 i rest ih =>
    rw [nmsLoop]
    refine List.Pairwise.cons (fun j hj => ?_) ih
    have hj' := List.Sublist.subset (nmsLoop_sublist l t _) hj
    simp only [List.mem_filter, decide_eq_true_eq] at hj'
    exact hj'.2

theorem nmsLoop_eq_self (l : List Detection) (t : ℚ) :
    ∀ order : List ℕ,
      order.Pairwise (fun i j => iouAt l i j ≤ t) → nmsLoop l t order = order := by
  intro order
  induction order using nmsLoop.induct l t with
  | case1 => intro _; rw [nmsLoop]
  | case2 i rest ih =>
    intro hp
    rw [List.pairwise_cons] at hp
    have hf : rest.filter (fun j => decide (iouAt l i j ≤ t)) = rest :=
      List.filter_eq_self.mpr (fun a ha => decide_eq_true (hp.1 a ha))
    rw [nmsLoop, hf]
    rw [hf] at ih
    exact congrArg (i :: ·) (ih hp.2)

theorem nmsLoop_single (l : List Detection) (t : ℚ) (i : ℕ) (rest : List ℕ)
    (h : ∀ j ∈ rest, t < iouAt l i j) : nmsLoop l t (i :: rest) = [i] := by
  have hf : rest.filter (fun j => decide (iouAt l i j ≤ t)) = [] := by
    rw [List.filter_eq_nil_iff]
    intro a ha
    simpa using not_le.mpr (h a ha)
  rw [nmsLoop, hf, nmsLoop]

theorem map_getD_range (l : List Detection) :
    (List.range l.length).map (fun i => l.getD i default) = l := by
  apply List.ext_getElem
  · simp
  · intro i h1 h2
    simp [List.getD, List.getElem?_eq_getElem h2]

theorem nms_merge_mem (l : List Detection) (t : ℚ) :
    ∀ d ∈ nms_merge l t, d ∈ l := by
  intro d hd
  rw [nms_merge, List.mem_map] at hd
  obtain ⟨i, hi, rfl⟩ := hd
  have hlen : i < l.length := by
    rw [← mem_sortedOrder l]
    exact List.Sublist.subset (nmsLoop_sublist l t _) hi
  rw [List.getD_eq_getElem l default hlen]
  exact List.getElem_mem hlen

theorem nms_merge_sorted_conf (l : List Detection) (t : ℚ) :
    (nms_merge l t).Pairwise (fun a b => b.confidence ≤ a.confidence) := by
  rw [nms_merge]
  have hp : (nmsLoop l t (sortedOrder l)).Pairwise (procBefore l) :=
    List.Pairwise.sublist (nmsLoop_sublist l t _) (sortedOrder_sorted l)
  rw [List.pairwise_map]
  refine hp.imp ?_
  intro i j hij
  rcases hij with h | ⟨h, _⟩
  · exact le_of_lt h
  · exact le_of_eq h.symm

theorem nms_merge_pairwise_iou (l : List Detection) (t : ℚ) :
    (nms_merge l t).Pairwise (fun a b => iou a b ≤ t) := by
  rw [nms_merge, List.pairwise_map]
  exact (nmsLoop_pairwise_iou l t (sortedOrder l)).imp (fun h => h)

theorem iouAt_le_of_pairwise (l : List Detection) (t : ℚ)
    (hinv : l.Pairwise (fun a b => iou a b ≤ t)) :
    ∀ i j, i < l.length → j < l.length → i ≠ j → iouAt l i j ≤ t := by
  intro i j hi hj hij
  rw [List.pairwise_iff_getElem] at hinv
  rw [iouAt, List.getD_eq_getElem l default hi, List.getD_eq_getElem l default hj]
  rcases Nat.lt_or_ge i j with h | h
  · exact hinv i j hi hj h
  · have hji := hinv j i hj hi (Nat.lt_of_le_of_ne h (Ne.symm hij))
    rw [iou_comm]
    exact hji

theorem nms_merge_idem_perm (l : List Detection) (t : ℚ) :
    List.Perm (nms_merge (nms_merge l t) t) (nms_merge l t) := by
  set o := nms_merge l t with ho
  have hinv : o.Pairwise (fun a b => iou a b ≤ t) := nms_merge_pairwise_iou l t
  have hall := iouAt_le_of_pairwise o t hinv
  have hpair : (sortedOrder o).Pairwise (fun i j => iouAt o i j ≤ t) := by
    refine (nodup_sortedOrder o).imp_of_mem ?_
    intro a b ha hb hne
    exact hall a b ((mem_sortedOrder o a).mp ha) ((mem_sortedOrder o b).mp hb) hne
  rw [nms_merge, nmsLoop_eq_self o t _ hpair]
  have h1 : List.Perm ((sortedOrder o).map (fun i => o.getD i default))
      ((List.range o.length).map (fun i => o.getD i default)) :=
    (sortedOrder_perm o).map _
  rw [map_getD_range o] at h1
  exact h1

theorem nms_merge_cluster (l : List Detection) (t : ℚ) (hne : l ≠ [])
    (hiou : ∀ i j, i < l.length → j < l.length → i ≠ j → t < iouAt l i j) :
    ∃ a, nms_merge l t = [a] ∧ a ∈ l ∧ ∀ b ∈ l, b.confidence ≤ a.confidence := by
  obtain ⟨i0, rest, hso⟩ : ∃ i0 rest, sortedOrder l = i0 :: rest := by
    cases hs : sortedOrder l with
    | nil =>
      exfalso
      have hlen := (sortedOrder_perm l).length_eq
      rw [hs, List.length_range] at hlen
      exact hne (List.length_eq_zero.mp hlen.symm)
    | cons i0 rest => exact ⟨i0, rest, rfl⟩
  have hi0 : i0 < l.length := (mem_sortedOrder l i0).mp (hso ▸ List.mem_cons_self i0 rest)
  have hnd := nodup_sortedOrder l
  rw [hso, List.nodup_cons] at hnd
  have hrest : ∀ j ∈ rest, t < iouAt l i0 j := by
    intro j hj
    have hjmem : j ∈ sortedOrder l := hso ▸ List.mem_cons_of_mem i0 hj
    have hjlen : j < l.length := (mem_sortedOrder l j).mp hjmem
    exact hiou i0 j hi0 hjlen (fun he => hnd.1 (he ▸ hj))
  refine ⟨l.getD i0 default, ?_, ?_, ?_⟩
  · rw [nms_merge, hso, nmsLoop_single l t i0 rest hrest, List.map_singleton]
  · rw [List.getD_eq_getElem l default hi0]
    exact List.getElem_mem hi0
  · rw [List.getD_eq_getElem l default hi0]
    intro b hb
    obtain ⟨j, hjlen, rfl⟩ := List.mem_iff_getElem.mp hb
    have hjso : j ∈ sortedOrder l := (mem_sortedOrder l j).mpr hjlen
    rw [hso] at hjso
    have hconf : confAt l j ≤ confAt l i0 := by
      rcases List.mem_cons.mp hjso with rfl | hjr
      · exact le_refl _
      · have hsorted := sortedOrder_sorted l
        rw [hso, List.sorted_cons] at hsorted
        rcases hsorted.1 j hjr with h | ⟨h, _⟩
        · exact le_of_lt h
        · exact le_of_eq h.symm
    rw [confAt, confAt, List.getD_eq_getElem l default hi0,
      List.getD_eq_getElem l default hjlen] at hconf
    exact hconf

/-! ### Evaluation of the merge on one- and two-element inputs -/

theorem nms_merge_singleton (a : Detection) (t : ℚ) : nms_merge [a] t = [a] := by
  have hso : sortedOrder [a] = [0] := by
    rw [sortedOrder]
    have hr : List.range ([a].length) = [0] := rfl
    rw [hr]
    simp [List.insertionSort, List.orderedInsert]
  rw [nms_merge, hso]
  simp [nmsLoop]

theorem procBefore_pair_iff (a b : Detection) :
    procBefore [a, b] 0 1 ↔ b.confidence < a.confidence := by
  simp [procBefore, confAt, List.getD]

theorem sortedOrder_pair (a b : Detection) :
    sortedOrder [a, b] = if procBefore [a, b] 0 1 then [0, 1] else [1, 0] := by
  rw [sortedOrder]
  have hr : List.range ([a, b].length) = [0, 1] := rfl
  rw [hr]
  simp only [List.insertionSort, List.orderedInsert]

theorem nmsLoop_pair_keep (l : List Detection) (t : ℚ) (i j : ℕ)
    (h : iouAt l i j ≤ t) : nmsLoop l t [i, j] = [i, j] := by
  simp [nmsLoop, h]

theorem nmsLoop_pair_drop (l : List Detection) (t : ℚ) (i j : ℕ)
    (h : t < iouAt l i j) : nmsLoop l t [i, j] = [i] := by
  simp [nmsLoop, not_le.mpr h]

theorem nms_merge_pair_first_drop (a b : Detection) (t : ℚ)
    (hconf : b.confidence < a.confidence) (hiou : t < iou a b) :
    nms_merge [a, b] t = [a] := by
  rw [nms_merge, sortedOrder_pair, if_pos ((procBefore_pair_iff a b).mpr hconf),
    nmsLoop_pair_drop [a, b] t 0 1 hiou]
  rfl

theorem nms_merge_pair_first_keep (a b : Detection) (t : ℚ)
    (hconf : b.confidence < a.confidence) (hiou : iou a b ≤ t) :
    nms_merge [a, b] t = [a, b] := by
  rw [nms_merge, sortedOrder_pair, if_pos ((procBefore_pair_iff a b).mpr hconf),
    nmsLoop_pair_keep [a, b] t 0 1 hiou]
  rfl

theorem nms_merge_pair_second_drop (a b : Detection) (t : ℚ)
    (hconf : ¬ b.confidence < a.confidence) (hiou : t < iou b a) :
    nms_merge [a, b] t = [b] := by
  rw [nms_merge, sortedOrder_pair,
    if_neg (fun hc => hconf ((procBefore_pair_iff a b).mp hc)),
    nmsLoop_pair_drop [a, b] t 1 0 hiou]
  rfl

theorem nms_merge_pair_second_keep (a b : Detection) (t : ℚ)
    (hconf : ¬ b.confidence < a.confidence) (hiou : iou b a ≤ t) :
    nms_merge [a, b] t = [b, a] := by
  rw [nms_merge, sortedOrder_pair,
    if_neg (fun hc => hconf ((procBefore_pair_iff a b).mp hc)),
    nmsLoop_pair_keep [a, b] t 1 0 hiou]
  rfl

/-! ### Structural lemmas about the tiling engine -/

theorem strideNat_le (ss : ℕ) (ov : ℚ) (hov0 : 0 ≤ ov) (hov1 : ov ≤ 1) :
    strideNat ss ov ≤ ss := by
  have harg : (0 : ℚ) ≤ (ss : ℚ) * (1 - ov) := by
    apply mul_nonneg (by positivity)
    linarith
  rw [strideNat, pyInt_eq_floor _ harg]
  rw [Int.toNat_le]
  calc ⌊(ss : ℚ) * (1 - ov)⌋ ≤ ⌊(ss : ℚ)⌋ := by
        apply Int.floor_le_floor
        nlinarith [Nat.cast_nonneg (α := ℚ) ss]
    _ = (ss : ℤ) := Int.floor_natCast ss

theorem axis_size (extent ss x : ℕ) :
    min (x + ss) extent - (min (x + ss) extent - ss) = min ss extent := by
  omega

theorem axis_cover (extent ss step : ℕ) (hstep : 0 < step) (hss : step ≤ ss)
    (p : ℕ) (hp : p < extent) :
    ∃ x ∈ pyRange extent step,
      min (x + ss) extent - ss ≤ p ∧ p < min (x + ss) extent := by
  have hx_le : p / step * step ≤ p := Nat.div_mul_le_self p step
  have hmod := Nat.div_add_mod p step
  rw [Nat.mul_comm] at hmod
  have hmodlt : p % step < step := Nat.mod_lt _ hstep
  refine ⟨p / step * step, ?_, ?_, ?_⟩
  · rw [pyRange, List.mem_map]
    refine ⟨p / step, ?_, rfl⟩
    rw [List.mem_range]
    have hrw : extent + step - 1 = (extent - 1) + step := by omega
    rw [hrw, Nat.add_div_right _ hstep]
    have hdiv : p / step ≤ (extent - 1) / step :=
      Nat.div_le_div_right (by omega)
    omega
  · omega
  · have hlt : p < p / step * step + step := by omega
    have hss' : p < p / step * step + ss := by omega
    omega

/-- Helper: the confidence if-chain of the source equals the spec step
function with explicit bucket bounds. -/
theorem confidence_ite_eq_step (sig : ℚ) :
    (if sig < 1.0 then (0.3 : ℚ) else if sig < 3.0 then 0.5
      else if sig < 6.0 then 0.7 else 0.85) = confidenceStepSpec sig := by
  unfold confidenceStepSpec
  rcases lt_or_le sig 1.0 with hA | hA
  · rw [if_pos hA, if_pos hA]
  · rw [if_neg (not_lt.mpr hA), if_neg (not_lt.mpr hA)]
    rcases lt_or_le sig 3.0 with hB | hB
    · rw [if_pos hB, if_pos ⟨hA, hB⟩]
    · rw [if_neg (not_lt.mpr hB),
        if_neg (show ¬(1.0 ≤ sig ∧ sig < 3.0) from fun hc => absurd hc.2 (not_lt.mpr hB))]
      rcases lt_or_le sig 6.0 with hC | hC
      · rw [if_pos hC, if_pos ⟨hB, hC⟩]
      · rw [if_neg (not_lt.mpr hC),
          if_neg (show ¬(3.0 ≤ sig ∧ sig < 6.0) from fun hc => absurd hc.2 (not_lt.mpr hC))]

/-! ## Claim theorems -/

/-- C1 counterexample: at person_count 1 and reference_area 3000 the
density is 1/30 and the quiet-branch raw score is 5/3; the code truncates
it to 1 while the nearest-integer rounding the claim states yields 2, so
the scorer does not implement the round formulas. -/
theorem C1_busyness_round_counterexample :
    (calculate_busyness 1 3000).score = 1 ∧ (busynessSpecRound 1 3000).score = 2 ∧
      calculate_busyness 1 3000 ≠ busynessSpecRound 1 3000 := by
  have h1 : (calculate_busyness 1 3000).score = 1 := by
    norm_num [calculate_busyness, pyInt_eq_floor]
  have h2 : (busynessSpecRound 1 3000).score = 2 := by
    norm_num [busynessSpecRound, round_eq]
  refine ⟨h1, h2, fun he => ?_⟩
  rw [he, h2] at h1
  exact absurd h1 (by decide)

/-- C1 (amended): for every person_count and reference_area > 0 the
Busyness Scorer computes density = (person_count / reference_area) * 100
and returns exactly the spec piecewise formulas and levels, with the score
truncated toward zero (Python int, floor on these nonnegative values)
instead of rounded to nearest. -/
theorem C1_busyness_matches_spec_trunc (person_count : ℕ) (reference_area : ℚ)
    (h : 0 < reference_area) :
    calculate_busyness person_count reference_area
      = busynessSpecTrunc person_count reference_area := by
  simp only [calculate_busyness, busynessSpecTrunc]
  set d : ℚ := (person_count : ℚ) / reference_area * 100 with hd
  rcases le_or_lt d 0.5 with hA | hA
  · rw [if_pos hA, if_pos hA]
  · rw [if_neg (not_le.mpr hA), if_neg (not_le.mpr hA)]
    rcases le_or_lt d 2.0 with hB | hB
    · rw [if_pos hB, if_pos ⟨hA, hB⟩]
    · rw [if_neg (not_le.mpr hB),
        if_neg (show ¬(0.5 < d ∧ d ≤ 2.0) from fun hc => absurd hc.2 (not_le.mpr hB))]
      rcases le_or_lt d 4.0 with hC | hC
      · rw [if_pos hC, if_pos ⟨hB, hC⟩]
      · rw [if_neg (not_le.mpr hC),
          if_neg (show ¬(2.0 < d ∧ d ≤ 4.0) from fun hc => absurd hc.2 (not_le.mpr hC))]

/-- C1 witness: the spec scenario person_count 10, reference_area 5000. -/
theorem C1_busyness_matches_spec_trunc_witness :
    calculate_busyness 10 5000 = busynessSpecTrunc 10 5000 :=
  C1_busyness_matches_spec_trunc 10 5000 (by norm_num)

/-- C2 counterexample: with 3 skin pixels out of 200 total (skin
percentage 1.5) and no bright or edge pixels, weighted activity is 0.9;
the code truncates the count to 0 while the claimed nearest-integer
rounding yields 1. -/
theorem C2_fallback_round_counterexample :
    (analyze_pixel_density_core 3 0 0 200).estimated_persons = 0 ∧
      fallbackSpecRoundCount 3 0 0 200 = 1 ∧
      (analyze_pixel_density_core 3 0 0 200).estimated_persons
        ≠ fallbackSpecRoundCount 3 0 0 200 := by
  have h1 : (analyze_pixel_density_core 3 0 0 200).estimated_persons = 0 := by
    norm_num [analyze_pixel_density_core, pyInt_eq_floor]
  have h2 : fallbackSpecRoundCount 3 0 0 200 = 1 := by
    norm_num [fallbackSpecRoundCount, round_eq]
  refine ⟨h1, h2, fun he => ?_⟩
  rw [h1, h2] at he
  exact absurd he (by decide)

/-- C2 (amended): for every input pixel statistics with a positive pixel
total, the fallback count equals the spec formula
weighted_activity = 0.6*skin% + 0.25*bright% + 0.15*edge% divided by the
calibration constant 1.0, truncated toward zero (Python int) rather than
rounded to nearest, and clamped to [0, 500]. -/
theorem C2_fallback_count_matches_spec_trunc
    (skin bright edge total : ℕ) (h : 0 < total) :
    (analyze_pixel_density_core skin bright edge total).estimated_persons
      = fallbackSpecTruncCount skin bright edge total := by
  simp only [analyze_pixel_density_core, fallbackSpecTruncCount]
  have harg :
      ((((skin : ℚ) / (total : ℚ)) * 100 * 0.6)
          + (((bright : ℚ) / (total : ℚ)) * 100 * 0.25)
          + (((edge : ℚ) / (total : ℚ)) * 100 * 0.15)) / 1.0
        = (0.6 * (((skin : ℚ) / (total : ℚ)) * 100)
          + 0.25 * (((bright : ℚ) / (total : ℚ)) * 100)
          + 0.15 * (((edge : ℚ) / (total : ℚ)) * 100)) / 1.0 := by ring
  rw [harg]

/-- C2 witness: the counterexample input also instantiates the amended
claim. -/
theorem C2_fallback_count_matches_spec_trunc_witness :
    (analyze_pixel_density_core 3 0 0 200).estimated_persons
      = fallbackSpecTruncCount 3 0 0 200 :=
  C2_fallback_count_matches_spec_trunc 3 0 0 200 (by norm_num)

/-- C3 counterexample: two distinct detections with equal confidence 0.9
and IoU about 0.82 above the threshold 0.4; the merge keeps the one that
occurs LATER in the input, not the earlier one the claim states. -/
theorem C3_tie_order_counterexample :
    merge_detections [⟨0, 0, 10, 10, 0.9⟩, ⟨1, 0, 11, 10, 0.9⟩] 0.4
        = [⟨1, 0, 11, 10, 0.9⟩] ∧
      merge_detections [⟨0, 0, 10, 10, 0.9⟩, ⟨1, 0, 11, 10, 0.9⟩] 0.4
        ≠ [⟨0, 0, 10, 10, 0.9⟩] := by
  have h1 : merge_detections [(⟨0, 0, 10, 10, 0.9⟩ : Detection), ⟨1, 0, 11, 10, 0.9⟩] 0.4
      = [⟨1, 0, 11, 10, 0.9⟩] := by
    rw [merge_detections]
    apply nms_merge_pair_second_drop
    · norm_num
    · norm_num [iou, interArea, boxArea, min_def, max_def]
  refine ⟨h1, fun he => ?_⟩
  rw [h1] at he
  simp [Detection.mk.injEq] at he

/-- C3 (amended): confidence ties are broken deterministically by REVERSE
stable input order: among two equal-confidence detections whose IoU
exceeds the threshold, the one occurring later in the input is processed
first and kept in preference. -/
theorem C3_tie_broken_by_later_index (a b : Detection) (t : ℚ)
    (hconf : a.confidence = b.confidence) (hiou : t < iou a b) :
    merge_detections [a, b] t = [b] := by
  rw [merge_detections]
  apply nms_merge_pair_second_drop a b t (not_lt.mpr (le_of_eq hconf))
  rw [iou_comm b a]
  exact hiou

/-- C3 witness: two coincident boxes with equal confidence. -/
theorem C3_tie_broken_by_later_index_witness :
    merge_detections [⟨0, 0, 2, 2, 0.5⟩, ⟨0, 0, 2, 2, 0.5⟩] 0 = [⟨0, 0, 2, 2, 0.5⟩] :=
  C3_tie_broken_by_later_index ⟨0, 0, 2, 2, 0.5⟩ ⟨0, 0, 2, 2, 0.5⟩ 0 rfl
    (by norm_num [iou, interArea, boxArea, min_def, max_def])

/-- C4 counterexample: with the JSON output flag, a missing image still
produces the structured failure, but main prints the JSON and falls
through to a normal process exit, so the exit code is 0, not non-zero as
the claim states for every output-format flag. -/
theorem C4_json_exit_zero_counterexample :
    (yoloMainMissingImage "/tmp/missing.jpg" true).success = false ∧
      (yoloMainMissingImage "/tmp/missing.jpg" true).exit_code = 0 :=
  ⟨rfl, rfl⟩

/-- C4 (amended): on a missing image path, detect_persons returns a
structured failure (success false with an error message) and main reports
it without crashing in both output modes; the process exit code is
non-zero (1) only in human-readable mode, while with the JSON flag it is
0. -/
theorem C4_cli_failure_modes :
    (∀ p, (detect_persons_missing_image p).success = false) ∧
    (∀ p, ((detect_persons_missing_image p).error).isSome = true) ∧
    (∀ p jf, (yoloMainMissingImage p jf).success = false) ∧
    (∀ p jf, (yoloMainMissingImage p jf).has_error_message = true) ∧
    (∀ p, (yoloMainMissingImage p false).exit_code = 1) ∧
    (∀ p, (yoloMainMissingImage p true).exit_code = 0) := by
  refine ⟨fun p => rfl, fun p => rfl, fun p jf => ?_, fun p jf => ?_,
    fun p => rfl, fun p => rfl⟩
  · cases jf <;> rfl
  · cases jf <;> rfl

/-- C5 counterexample: slice_size 1 and overlap 1/2 satisfy every stated
constraint, yet the stride truncates to 0 and the Python loop header
range(0, h, 0) raises ValueError, modelled as the none result; the slicer
is not total on the claimed domain. -/
theorem C5_stride_zero_counterexample :
    (0 : ℚ) ≤ 1 / 2 ∧ (1 / 2 : ℚ) < 1 ∧ 0 < 1 ∧
      strideNat 1 (1 / 2) = 0 ∧ slice_image 1 1 1 (1 / 2) = none := by
  refine ⟨by norm_num, by norm_num, by norm_num, ?_, ?_⟩
  · norm_num [strideNat, pyInt_eq_floor]
  · norm_num [slice_image, strideNat, pyInt_eq_floor]

/-- C5 (amended): under the stated constraints together with the extra
precondition that the truncated stride is at least 1, slice_image is total
and returns a finite tile list; when the stride truncates to 0 it instead
raises. -/
theorem C5_slice_total_of_pos_stride (w h ss : ℕ) (ov : ℚ)
    (hw : 1 ≤ w) (hh : 1 ≤ h) (hss : 0 < ss) (hov0 : 0 ≤ ov) (hov1 : ov < 1)
    (hstr : 1 ≤ strideNat ss ov) :
    ∃ tiles, slice_image w h ss ov = some tiles := by
  simp only [slice_image]
  rw [if_neg (show ¬ strideNat ss ov = 0 by omega)]
  exact ⟨_, rfl⟩

/-- C5 witness: a 3x3 image with slice_size 2 and overlap 1/4 (stride 1). -/
theorem C5_slice_total_of_pos_stride_witness :
    ∃ tiles, slice_image 3 3 2 (1 / 4) = some tiles :=
  C5_slice_total_of_pos_stride 3 3 2 (1 / 4) (by norm_num) (by norm_num)
    (by norm_num) (by norm_num) (by norm_num)
    (by norm_num [strideNat, pyInt_eq_floor])

/-- C6: for any image of positive extent and slicing parameters in the
stated constraint range with positive stride, the tiles of slice_image
cover every pixel of the image, and each tile has exactly slice_size
extent per axis except that an axis on which the image is smaller than
slice_size is spanned fully. -/
theorem C6_slice_coverage_and_tile_size (w h ss : ℕ) (ov : ℚ)
    (hw : 1 ≤ w) (hh : 1 ≤ h) (hss : 0 < ss) (hov0 : 0 ≤ ov) (hov1 : ov < 1)
    (hstr : 1 ≤ strideNat ss ov) :
    ∃ tiles, slice_image w h ss ov = some tiles ∧
      (∀ px py, px < w → py < h → ∃ tile ∈ tiles, tile.covers px py) ∧
      (∀ tile ∈ tiles, tile.x_end - tile.x_start = min ss w ∧
        tile.y_end - tile.y_start = min ss h) := by
  set stride := strideNat ss ov with hsdef
  have hstep : 0 < stride := hstr
  have hle : stride ≤ ss := strideNat_le ss ov hov0 (le_of_lt hov1)
  refine ⟨(pyRange h stride).flatMap fun y =>
      (pyRange w stride).map fun x => mkTile w h ss x y, ?_, ?_, ?_⟩
  · rw [slice_image]
    simp only [← hsdef]
    rw [if_neg (Nat.pos_iff_ne_zero.mp hstep)]
  · intro px py hpx hpy
    obtain ⟨x, hxmem, hx1, hx2⟩ := axis_cover w ss stride hstep hle px hpx
    obtain ⟨y, hymem, hy1, hy2⟩ := axis_cover h ss stride hstep hle py hpy
    refine ⟨mkTile w h ss x y, ?_, ?_⟩
    · rw [List.mem_flatMap]
      exact ⟨y, hymem, List.mem_map_of_mem _ hxmem⟩
    · exact ⟨hx1, hx2, hy1, hy2⟩
  · intro tile htile
    rw [List.mem_flatMap] at htile
    obtain ⟨y, hy, htile⟩ := htile
    rw [List.mem_map] at htile
    obtain ⟨x, hx, rfl⟩ := htile
    exact ⟨axis_size w ss x, axis_size h ss y⟩

/-- C6 witness: the 3x3 image with slice_size 2 and overlap 1/4. -/
theorem C6_slice_coverage_and_tile_size_witness :
    ∃ tiles, slice_image 3 3 2 (1 / 4) = some tiles ∧
      (∀ px py, px < 3 → py < 3 → ∃ tile ∈ tiles, tile.covers px py) ∧
      (∀ tile ∈ tiles, tile.x_end - tile.x_start = min 2 3 ∧
        tile.y_end - tile.y_start = min 2 3) :=
  C6_slice_coverage_and_tile_size 3 3 2 (1 / 4) (by norm_num) (by norm_num)
    (by norm_num) (by norm_num) (by norm_num)
    (by norm_num [strideNat, pyInt_eq_floor])

/-- C7: for a pair of overlapping detections with differing confidences
only the higher-confidence one survives; for a pair with IoU below the
threshold both survive; and any nonempty mutually-overlapping cluster
merges to exactly one detection whose confidence is the maximum of the
cluster. -/
theorem C7_merger_correctness :
    (∀ (a b : Detection) (t : ℚ), b.confidence < a.confidence → t < iou a b →
        merge_detections [a, b] t = [a]) ∧
    (∀ (a b : Detection) (t : ℚ), a.confidence < b.confidence → t < iou a b →
        merge_detections [a, b] t = [b]) ∧
    (∀ (a b : Detection) (t : ℚ), b.confidence < a.confidence → iou a b < t →
        merge_detections [a, b] t = [a, b]) ∧
    (∀ (a b : Detection) (t : ℚ), a.confidence < b.confidence → iou a b < t →
        merge_detections [a, b] t = [b, a]) ∧
    (∀ (l : List Detection) (t : ℚ), l ≠ [] →
      (∀ i j, i < l.length → j < l.length → i ≠ j → t < iouAt l i j) →
      ∃ a, merge_detections l t = [a] ∧ a ∈ l ∧
        ∀ b ∈ l, b.confidence ≤ a.confidence) := by
  refine ⟨?_, ?_, ?_, ?_, ?_⟩
  · intro a b t hconf hiou
    rw [merge_detections]
    exact nms_merge_pair_first_drop a b t hconf hiou
  · intro a b t hconf hiou
    rw [merge_detections]
    apply nms_merge_pair_second_drop a b t (not_lt.mpr (le_of_lt hconf))
    rw [iou_comm b a]
    exact hiou
  · intro a b t hconf hiou
    rw [merge_detections]
    exact nms_merge_pair_first_keep a b t hconf (le_of_lt hiou)
  · intro a b t hconf hiou
    rw [merge_detections]
    apply nms_merge_pair_second_keep a b t (not_lt.mpr (le_of_lt hconf))
    rw [iou_comm b a]
    exact le_of_lt hiou
  · intro l t hne hiou
    simp only [merge_detections]
    exact nms_merge_cluster l t hne hiou

/-- C7 witness: an overlapping pair with confidences 0.8 and 0.6 keeps
only the higher-confidence detection. -/
theorem C7_merger_correctness_witness :
    merge_detections [⟨0, 0, 10, 10, 0.8⟩, ⟨1, 0, 11, 10, 0.6⟩] 0.4
      = [⟨0, 0, 10, 10, 0.8⟩] :=
  C7_merger_correctness.1 ⟨0, 0, 10, 10, 0.8⟩ ⟨1, 0, 11, 10, 0.6⟩ 0.4
    (by norm_num) (by norm_num [iou, interArea, boxArea, min_def, max_def])

/-- C8 counterexample: two non-overlapping detections with equal
confidence; one merge pass returns them in reverse input order, and a
second pass reverses them again, so re-merging does not return the
already-merged sequence unchanged. -/
theorem C8_idempotence_counterexample :
    merge_detections (merge_detections [⟨0, 0, 1, 1, 0.9⟩, ⟨5, 5, 6, 6, 0.9⟩] 0.4) 0.4
      ≠ merge_detections [⟨0, 0, 1, 1, 0.9⟩, ⟨5, 5, 6, 6, 0.9⟩] 0.4 := by
  have h1 : merge_detections [(⟨0, 0, 1, 1, 0.9⟩ : Detection), ⟨5, 5, 6, 6, 0.9⟩] 0.4
      = [⟨5, 5, 6, 6, 0.9⟩, ⟨0, 0, 1, 1, 0.9⟩] := by
    rw [merge_detections]
    apply nms_merge_pair_second_keep
    · norm_num
    · norm_num [iou, interArea, boxArea, min_def, max_def]
  have h2 : merge_detections [(⟨5, 5, 6, 6, 0.9⟩ : Detection), ⟨0, 0, 1, 1, 0.9⟩] 0.4
      = [⟨0, 0, 1, 1, 0.9⟩, ⟨5, 5, 6, 6, 0.9⟩] := by
    rw [merge_detections]
    apply nms_merge_pair_second_keep
    · norm_num
    · norm_num [iou, interArea, boxArea, min_def, max_def]
  rw [h1, h2]
  simp [Detection.mk.injEq]

/-- C8 (amended): the merged output always satisfies the DetectionSet
invariant (no two output detections have IoU above the threshold), and
re-merging an already-merged output returns the same detections as a
multiset (a permutation); equal-confidence detections can be reordered,
so the sequence is not in general literally unchanged. -/
theorem C8_invariant_and_idem_perm :
    (∀ (l : List Detection) (t : ℚ),
        (merge_detections l t).Pairwise (fun a b => iou a b ≤ t)) ∧
    (∀ (l : List Detection) (t : ℚ),
        List.Perm (merge_detections (merge_detections l t) t)
          (merge_detections l t)) := by
  constructor
  · intro l t
    rw [merge_detections]
    exact nms_merge_pairwise_iou l t
  · intro l t
    simp only [merge_detections]
    exact nms_merge_idem_perm l t

/-- C9: the fallback confidence is exactly the four-bucket step function
of signal strength (skin% + bright%)/2 with thresholds 1.0/3.0/6.0, so it
always lies in {0.3, 0.5, 0.7, 0.85}, and the estimated count always lies
in [0, 500]. -/
theorem C9_fallback_confidence_step (skin bright edge total : ℕ)
    (h : 0 < total) :
    ((analyze_pixel_density_core skin bright edge total).confidence
        = confidenceStepSpec
          ((((skin : ℚ) / (total : ℚ)) * 100 + ((bright : ℚ) / (total : ℚ)) * 100) / 2)) ∧
    ((analyze_pixel_density_core skin bright edge total).confidence = 0.3 ∨
      (analyze_pixel_density_core skin bright edge total).confidence = 0.5 ∨
      (analyze_pixel_density_core skin bright edge total).confidence = 0.7 ∨
      (analyze_pixel_density_core skin bright edge total).confidence = 0.85) ∧
    0 ≤ (analyze_pixel_density_core skin bright edge total).estimated_persons ∧
    (analyze_pixel_density_core skin bright edge total).estimated_persons ≤ 500 := by
  have hconf : (analyze_pixel_density_core skin bright edge total).confidence
      = confidenceStepSpec
        ((((skin : ℚ) / (total : ℚ)) * 100 + ((bright : ℚ) / (total : ℚ)) * 100) / 2) := by
    simp only [analyze_pixel_density_core]
    exact confidence_ite_eq_step _
  refine ⟨hconf, ?_, ?_, ?_⟩
  · rw [hconf]
    unfold confidenceStepSpec
    split_ifs <;> simp
  · simp only [analyze_pixel_density_core]
    exact le_max_left 0 _
  · simp only [analyze_pixel_density_core]
    exact max_le (by norm_num) (min_le_right _ _)

/-- C9 witness: the statistics 3 skin pixels, 0 bright, 0 edge out of 200. -/
theorem C9_fallback_confidence_step_witness :
    ((analyze_pixel_density_core 3 0 0 200).confidence
        = confidenceStepSpec
          ((((3 : ℕ) : ℚ) / ((200 : ℕ) : ℚ) * 100 + (((0 : ℕ) : ℚ) / ((200 : ℕ) : ℚ)) * 100) / 2)) ∧
    ((analyze_pixel_density_core 3 0 0 200).confidence = 0.3 ∨
      (analyze_pixel_density_core 3 0 0 200).confidence = 0.5 ∨
      (analyze_pixel_density_core 3 0 0 200).confidence = 0.7 ∨
      (analyze_pixel_density_core 3 0 0 200).confidence = 0.85) ∧
    0 ≤ (analyze_pixel_density_core 3 0 0 200).estimated_persons ∧
    (analyze_pixel_density_core 3 0 0 200).estimated_persons ≤ 500 :=
  C9_fallback_confidence_step 3 0 0 200 (by norm_num)

/-- C10: every detection returned by the merge is one of the input
detections, unchanged, and the output sequence is ordered by
non-increasing confidence. -/
theorem C10_output_membership_and_order :
    ∀ (l : List Detection) (t : ℚ),
      (∀ d ∈ nms_merge l t, d ∈ l) ∧
      (nms_merge l t).Pairwise (fun a b => b.confidence ≤ a.confidence) :=
  fun l t => ⟨nms_merge_mem l t, nms_merge_sorted_conf l t⟩

/-- C10 witness: the membership component applied on a singleton input. -/
theorem C10_output_membership_and_order_witness :
    (⟨0, 0, 1, 1, 0.5⟩ : Detection) ∈ nms_merge [⟨0, 0, 1, 1, 0.5⟩] 0 ∧
      (⟨0, 0, 1, 1, 0.5⟩ : Detection) ∈ [(⟨0, 0, 1, 1, 0.5⟩ : Detection)] :=
  ⟨by rw [nms_merge_singleton]; exact List.mem_singleton_self _,
   (C10_output_membership_and_order [⟨0, 0, 1, 1, 0.5⟩] 0).1 _
     (by rw [nms_merge_singleton]; exact List.mem_singleton_self _)⟩

end BeachCrowd
